import Mathlib

/-!
Shallow embedding of the batch-orchestration core of tedium (src/tedium.ts):
the push-budget governor, the publish pipeline (pushChanges, pushBranch,
createPullRequest), repository-discovery deduplication (getRepos), the
rate-limit chain, the sequential transform-and-publish loop of `_main`, and
the reporter. External effects (remote git pushes, the hosting-service API,
the cleanup-pass pipeline) are abstracted by oracles recording which calls
were attempted and whether each succeeded.
-/

namespace Tedium

/-- A repository descriptor as returned by the hosting service
(the `GitHub.Repo` shape: owner login, name, clone URL). -/
structure Repo where
  owner : String
  name : String
  clone_url : String
deriving Repr, DecidableEq

/-- The per-repository orchestration record (`ElementRepo`), restricted to
the fields that the orchestration code in tedium.ts reads and writes:
the working directory, the originating descriptor, the `dirty` and
`needsReview` bits set by the cleanup pipeline, and the three push-outcome
flags set by `pushChanges`. -/
structure ElementRepo where
  dir : String
  ghRepo : Repo
  dirty : Bool
  needsReview : Bool
  pushDenied : Bool
  pushSucceeded : Bool
  pushFailed : Bool
deriving Repr, DecidableEq

/-- The process-wide push-budget counters (`elementsPushed`, `pushesDenied`
module-level variables in tedium.ts). -/
structure BudgetState where
  elementsPushed : Nat
  pushesDenied : Nat
deriving Repr, DecidableEq

/-- Both counters start at zero. -/
def initBudget : BudgetState := ⟨0, 0⟩

/-- `pushIsAllowed` from tedium.ts: returns true and increments
`elementsPushed` while `elementsPushed < opts.max_changes`; otherwise
increments `pushesDenied` and returns false. The configured maximum is a
non-negative integer (the CLI parser only accepts digit strings, default 0). -/
def pushIsAllowed (max_changes : Nat) (s : BudgetState) : Bool × BudgetState :=
  if s.elementsPushed < max_changes then
    (true, ⟨s.elementsPushed + 1, s.pushesDenied⟩)
  else
    (false, ⟨s.elementsPushed, s.pushesDenied + 1⟩)

/-- The budget state after `n` consecutive calls to `pushIsAllowed` starting
from the initial state. -/
def budgetRun (m : Nat) : Nat → BudgetState
  | 0 => initBudget
  | n + 1 => (pushIsAllowed m (budgetRun m n)).2

theorem budgetRun_eq (m n : Nat) : budgetRun m n = ⟨min n m, n - min n m⟩ := by
  induction n with
  | zero => simp [budgetRun, initBudget]
  | succ n ih =>
    rw [budgetRun, ih, pushIsAllowed]
    by_cases h : min n m < m
    · rw [if_pos h]
      simp only [BudgetState.mk.injEq]
      omega
    · rw [if_neg h]
      simp only [BudgetState.mk.injEq]
      omega

/-- Claim C1: starting from the initial counters, the call made after `n`
previous calls returns true exactly when `n < m` (so the first `m` calls
return true and every later call returns false); moreover any single call
increments exactly one of the two counters by one, so after `n` calls
pushed-count plus denied-count equals `n`. -/
theorem pushIsAllowed_budget (m n : Nat) (s : BudgetState) :
    (pushIsAllowed m (budgetRun m n)).1 = decide (n < m)
    ∧ (budgetRun m n).elementsPushed + (budgetRun m n).pushesDenied = n
    ∧ (pushIsAllowed m s).2.elementsPushed + (pushIsAllowed m s).2.pushesDenied
        = s.elementsPushed + s.pushesDenied + 1
    ∧ (((pushIsAllowed m s).2.elementsPushed = s.elementsPushed + 1
          ∧ (pushIsAllowed m s).2.pushesDenied = s.pushesDenied)
       ∨ ((pushIsAllowed m s).2.elementsPushed = s.elementsPushed
          ∧ (pushIsAllowed m s).2.pushesDenied = s.pushesDenied + 1)) := by
  refine ⟨?_, ?_, ?_, ?_⟩
  · rw [budgetRun_eq, pushIsAllowed]
    by_cases h : n < m
    · rw [if_pos (by omega : min n m < m)]
      simp [h]
    · rw [if_neg (by omega : ¬ min n m < m)]
      simp [h]
  · rw [budgetRun_eq]
    simp only []
    omega
  · rw [pushIsAllowed]
    by_cases h : s.elementsPushed < m
    · rw [if_pos h]
      simp only []
      omega
    · rw [if_neg h]
      simp only []
      omega
  · rw [pushIsAllowed]
    by_cases h : s.elementsPushed < m
    · rw [if_pos h]
      exact Or.inl ⟨rfl, rfl⟩
    · rw [if_neg h]
      exact Or.inr ⟨rfl, rfl⟩

/-- A remote side-effecting call attempted by the publish pipeline:
a git push of `refs/heads/localBranchName` to `refs/heads/remoteBranchName`
(`pushBranch`), a pull-request creation with the given title, head and base
(`github.pullRequests.create`), or an issue edit attaching an assignee and
labels (`github.issues.edit`). -/
inductive RemoteOp where
  | push (localBranchName remoteBranchName : String)
  | prCreate (title head base : String)
  | issueEdit (assignee : String) (labels : List String)
deriving Repr, DecidableEq

/-- Process-wide state threaded through the publish pipeline: the
push-budget counters and the log of attempted remote calls, in order, each
paired with whether that call succeeded (as dictated by the remote oracle). -/
structure RunState where
  budget : BudgetState
  ops : List (RemoteOp × Bool)
deriving Repr, DecidableEq

/-- The run starts with zeroed counters and no remote calls made. -/
def initRunState : RunState := ⟨initBudget, []⟩

/-- `createPullRequest` from tedium.ts, with the remote behaviour abstracted
by an oracle indexed by the number of remote calls already made: after the
rate-limit wait it creates a pull request from `head` into `base` with the
fixed title, then edits the resulting issue to set the assignee and the
single label. Returns the attempted calls in order and whether the function
threw (it throws as soon as one of its two remote calls fails). -/
def createPullRequest (oracle : Nat → Bool) (opsLen : Nat)
    (head base assignee : String) : List (RemoteOp × Bool) × Bool :=
  let prOk := oracle opsLen
  if prOk then
    let editOk := oracle (opsLen + 1)
    ([(RemoteOp.prCreate "Automatic cleanup!" head base, true),
      (RemoteOp.issueEdit assignee ["autogenerated"], editOk)], !editOk)
  else
    ([(RemoteOp.prCreate "Automatic cleanup!" head base, false)], true)

/-- `pushChanges` from tedium.ts: returns the updated element, the updated
process-wide state, and whether it threw. A non-dirty element returns
immediately; a budget-denied element is marked `pushDenied` with no remote
call; otherwise the working branch is pushed to "master" (or to the local
branch name when `needsReview`), followed for review changes by
`createPullRequest` into "master"; any failure marks `pushFailed` and
rethrows, success marks `pushSucceeded`. -/
def pushChanges (m : Nat) (oracle : Nat → Bool) (e : ElementRepo)
    (localBranchName assignee : String) (g : RunState) :
    ElementRepo × RunState × Bool :=
  if e.dirty = false then (e, g, false)
  else
    let pa := pushIsAllowed m g.budget
    if pa.1 = false then
      ({ e with pushDenied := true }, { g with budget := pa.2 }, false)
    else
      let remoteBranchName := if e.needsReview then localBranchName else "master"
      let pushOk := oracle g.ops.length
      let g2 : RunState :=
        ⟨pa.2, g.ops ++ [(RemoteOp.push localBranchName remoteBranchName, pushOk)]⟩
      if pushOk = false then
        ({ e with pushFailed := true }, g2, true)
      else if e.needsReview then
        let pr := createPullRequest oracle g2.ops.length localBranchName "master" assignee
        let g3 : RunState := ⟨g2.budget, g2.ops ++ pr.1⟩
        if pr.2 then
          ({ e with pushFailed := true }, g3, true)
        else
          ({ e with pushSucceeded := true }, g3, false)
      else
        ({ e with pushSucceeded := true }, g2, false)

/-- Claim C2: a dirty element that the exhausted budget denies is marked
`pushDenied`, the denial counter is incremented, and no remote call is
attempted (the call log is unchanged): `pushBranch` and `createPullRequest`
are never invoked, and the function returns without throwing. -/
theorem pushChanges_denied_no_remote (m : Nat) (oracle : Nat → Bool)
    (e : ElementRepo) (lb asg : String) (g : RunState)
    (hd : e.dirty = true) (hfull : m ≤ g.budget.elementsPushed) :
    pushChanges m oracle e lb asg g
      = ({ e with pushDenied := true },
         { g with budget := ⟨g.budget.elementsPushed, g.budget.pushesDenied + 1⟩ },
         false) := by
  rw [pushChanges, if_neg (by simp [hd]), pushIsAllowed,
    if_neg (by omega : ¬ g.budget.elementsPushed < m)]
  simp

/-- Witness for claim C2 at a concrete dirty element with a zero budget. -/
theorem pushChanges_denied_no_remote_witness :
    pushChanges 0 (fun _ => true)
        ⟨"repos/iron-ajax", ⟨"PolymerElements", "iron-ajax", "u"⟩,
          true, false, false, false, false⟩
        "auto-cleanup" "bot" initRunState
      = (⟨"repos/iron-ajax", ⟨"PolymerElements", "iron-ajax", "u"⟩,
          true, false, true, false, false⟩,
         ⟨⟨0, 1⟩, []⟩, false) := by
  exact pushChanges_denied_no_remote 0 (fun _ => true) _ "auto-cleanup" "bot"
    initRunState rfl (Nat.le_refl 0)

/-- Claim C3: a non-dirty element is returned untouched: no outcome flag is
set, the call log is unchanged, nothing throws, and the budget counters are
not consulted. -/
theorem pushChanges_not_dirty (m : Nat) (oracle : Nat → Bool)
    (e : ElementRepo) (lb asg : String) (g : RunState)
    (hd : e.dirty = false) :
    pushChanges m oracle e lb asg g = (e, g, false) := by
  rw [pushChanges, if_pos hd]

/-- Witness for claim C3 at a concrete clean element. -/
theorem pushChanges_not_dirty_witness :
    pushChanges 5 (fun _ => true)
        ⟨"repos/paper-input", ⟨"PolymerElements", "paper-input", "u"⟩,
          false, false, false, false, false⟩
        "auto-cleanup" "bot" initRunState
      = (⟨"repos/paper-input", ⟨"PolymerElements", "paper-input", "u"⟩,
          false, false, false, false, false⟩, initRunState, false) := by
  exact pushChanges_not_dirty 5 (fun _ => true) _ "auto-cleanup" "bot"
    initRunState rfl

/-- Recognizes a pull-request-creation call in the remote-call log. -/
def isPrCreateCall (c : RemoteOp × Bool) : Bool :=
  match c.1 with
  | RemoteOp.prCreate _ _ _ => true
  | _ => false

/-- Claim C4: for a dirty, budget-allowed element with every remote call
succeeding, review changes push the local branch to a remote branch of the
same name and create exactly one pull request into "master" with the fixed
title "Automatic cleanup!" and the single label "autogenerated", while
non-review changes push to remote "master" and create no pull request. -/
theorem pushChanges_routing (m : Nat) (oracle : Nat → Bool) (e : ElementRepo)
    (lb asg : String) (g : RunState)
    (hd : e.dirty = true) (hall : g.budget.elementsPushed < m)
    (hor : ∀ i, oracle i = true) :
    pushChanges m oracle e lb asg g
      = ({ e with pushSucceeded := true },
         ⟨⟨g.budget.elementsPushed + 1, g.budget.pushesDenied⟩,
          g.ops ++ (if e.needsReview then
              [(RemoteOp.push lb lb, true),
               (RemoteOp.prCreate "Automatic cleanup!" lb "master", true),
               (RemoteOp.issueEdit asg ["autogenerated"], true)]
            else [(RemoteOp.push lb "master", true)])⟩,
         false)
    ∧ (pushChanges m oracle e lb asg g).2.1.ops.countP isPrCreateCall
        = g.ops.countP isPrCreateCall + (if e.needsReview then 1 else 0) := by
  have key : pushChanges m oracle e lb asg g
      = ({ e with pushSucceeded := true },
         ⟨⟨g.budget.elementsPushed + 1, g.budget.pushesDenied⟩,
          g.ops ++ (if e.needsReview then
              [(RemoteOp.push lb lb, true),
               (RemoteOp.prCreate "Automatic cleanup!" lb "master", true),
               (RemoteOp.issueEdit asg ["autogenerated"], true)]
            else [(RemoteOp.push lb "master", true)])⟩,
         false) := by
    rw [pushChanges, if_neg (by simp [hd])]
    simp only [pushIsAllowed, if_pos hall]
    cases hnr : e.needsReview with
    | false => simp [hnr, hor, createPullRequest]
    | true => simp [hnr, hor, createPullRequest]
  refine ⟨key, ?_⟩
  rw [key]
  cases hnr : e.needsReview <;>
    simp [hnr, List.countP_append, isPrCreateCall, List.countP_cons]

/-- Witness for claim C4 at a concrete review-needing element with a budget
of one and an always-succeeding remote. -/
theorem pushChanges_routing_witness :
    pushChanges 1 (fun _ => true)
        ⟨"repos/iron-list", ⟨"PolymerElements", "iron-list", "u"⟩,
          true, true, false, false, false⟩
        "auto-cleanup" "bot" initRunState
      = (⟨"repos/iron-list", ⟨"PolymerElements", "iron-list", "u"⟩,
          true, true, false, true, false⟩,
         ⟨⟨1, 0⟩,
          [(RemoteOp.push "auto-cleanup" "auto-cleanup", true),
           (RemoteOp.prCreate "Automatic cleanup!" "auto-cleanup" "master", true),
           (RemoteOp.issueEdit "bot" ["autogenerated"], true)]⟩,
         false) := by
  have h := pushChanges_routing 1 (fun _ => true)
    ⟨"repos/iron-list", ⟨"PolymerElements", "iron-list", "u"⟩,
      true, true, false, false, false⟩
    "auto-cleanup" "bot" initRunState rfl (by decide) (fun _ => rfl)
  simpa [initRunState, initBudget] using h.1

/-- Claim C5: starting from an element with no outcome flag set, pushChanges
sets at most one of pushDenied, pushSucceeded, pushFailed; whenever it
throws the element is marked pushFailed (and nothing else), and for a dirty,
budget-allowed element that does not throw it is marked pushSucceeded (and
nothing else). -/
theorem pushChanges_outcome_exclusive (m : Nat) (oracle : Nat → Bool)
    (e : ElementRepo) (lb asg : String) (g : RunState)
    (h1 : e.pushDenied = false) (h2 : e.pushSucceeded = false)
    (h3 : e.pushFailed = false) :
    (pushChanges m oracle e lb asg g).1.pushDenied.toNat
      + (pushChanges m oracle e lb asg g).1.pushSucceeded.toNat
      + (pushChanges m oracle e lb asg g).1.pushFailed.toNat ≤ 1
    ∧ ((pushChanges m oracle e lb asg g).2.2 = true →
        (pushChanges m oracle e lb asg g).1.pushFailed = true
        ∧ (pushChanges m oracle e lb asg g).1.pushSucceeded = false
        ∧ (pushChanges m oracle e lb asg g).1.pushDenied = false)
    ∧ (e.dirty = true → g.budget.elementsPushed < m →
        (pushChanges m oracle e lb asg g).2.2 = false →
        (pushChanges m oracle e lb asg g).1.pushSucceeded = true
        ∧ (pushChanges m oracle e lb asg g).1.pushFailed = false
        ∧ (pushChanges m oracle e lb asg g).1.pushDenied = false) := by
  by_cases hd : e.dirty = false
  · simp [pushChanges, hd, h1, h2, h3]
  · replace hd : e.dirty = true := by revert hd; cases e.dirty <;> simp
    by_cases hall : g.budget.elementsPushed < m
    · by_cases hpush : oracle g.ops.length = true
      · cases hnr : e.needsReview with
        | false =>
          simp [pushChanges, pushIsAllowed, hd, hall, hpush, hnr, h1, h2, h3]
        | true =>
          by_cases hpr : oracle (g.ops.length + 1) = true
          · by_cases hedit : oracle (g.ops.length + 2) = true
            · simp [pushChanges, pushIsAllowed, createPullRequest,
                hd, hall, hpush, hnr, hpr, hedit, h1, h2, h3]
            · simp [pushChanges, pushIsAllowed, createPullRequest,
                hd, hall, hpush, hnr, hpr, h1, h2, h3,
                (by revert hedit; cases oracle (g.ops.length + 2) <;> simp :
                  oracle (g.ops.length + 2) = false)]
          · simp [pushChanges, pushIsAllowed, createPullRequest,
              hd, hall, hpush, hnr, h1, h2, h3,
              (by revert hpr; cases oracle (g.ops.length + 1) <;> simp :
                oracle (g.ops.length + 1) = false)]
      · simp [pushChanges, pushIsAllowed, hd, hall, h1, h2, h3,
          (by revert hpush; cases oracle g.ops.length <;> simp :
            oracle g.ops.length = false)]
    · simp [pushChanges, pushIsAllowed, hd, hall, h1, h2, h3]

/-- Witness for claim C5 at a concrete dirty element whose push fails. -/
theorem pushChanges_outcome_exclusive_witness :
    (pushChanges 1 (fun _ => false)
        ⟨"repos/iron-icon", ⟨"PolymerElements", "iron-icon", "u"⟩,
          true, false, false, false, false⟩
        "auto-cleanup" "bot" initRunState).1.pushDenied.toNat
      + (pushChanges 1 (fun _ => false)
        ⟨"repos/iron-icon", ⟨"PolymerElements", "iron-icon", "u"⟩,
          true, false, false, false, false⟩
        "auto-cleanup" "bot" initRunState).1.pushSucceeded.toNat
      + (pushChanges 1 (fun _ => false)
        ⟨"repos/iron-icon", ⟨"PolymerElements", "iron-icon", "u"⟩,
          true, false, false, false, false⟩
        "auto-cleanup" "bot" initRunState).1.pushFailed.toNat ≤ 1 := by
  exact (pushChanges_outcome_exclusive 1 (fun _ => false)
    ⟨"repos/iron-icon", ⟨"PolymerElements", "iron-icon", "u"⟩,
      true, false, false, false, false⟩
    "auto-cleanup" "bot" initRunState rfl rfl rfl).1

/-- A concrete dirty element whose changes do not need review. -/
def ironA : ElementRepo :=
  ⟨"repos/iron-a", ⟨"PolymerElements", "iron-a", "u"⟩,
    true, false, false, false, false⟩

/-- A concrete dirty element whose changes need review. -/
def ironB : ElementRepo :=
  ⟨"repos/iron-b", ⟨"PolymerElements", "iron-b", "u"⟩,
    true, true, false, false, false⟩

/-- Counterexample to claim C6: with a budget of one, a dirty element whose
remote push fails leaves `elementsPushed = 1` although no element's push
outcome is succeeded, so the pushed counter does not equal the number of
succeeded elements: the budget is consumed at the moment the push is
allowed, before the remote call, not upon success. -/
theorem elementsPushed_ne_succeeded_count :
    ¬ ((pushChanges 1 (fun _ => false) ironA "auto-cleanup" "bot"
          initRunState).2.1.budget.elementsPushed
        = (List.filter (fun e => e.pushSucceeded)
            [(pushChanges 1 (fun _ => false) ironA "auto-cleanup" "bot"
                initRunState).1]).length) := by
  decide

/-- Amended claim C6: the internal pushed counter counts budget-allowed push
attempts, not successful publishes: processing any dirty element while the
budget still has room increments `elementsPushed` by one whatever the remote
outcome, so a publish that fails after budget consumption still counts
against the configured maximum. -/
theorem pushBudget_counts_attempts (m : Nat) (oracle : Nat → Bool)
    (e : ElementRepo) (lb asg : String) (g : RunState)
    (hd : e.dirty = true) (hall : g.budget.elementsPushed < m) :
    (pushChanges m oracle e lb asg g).2.1.budget.elementsPushed
      = g.budget.elementsPushed + 1 := by
  rw [pushChanges, if_neg (by simp [hd])]
  simp only [pushIsAllowed, if_pos hall]
  repeat' split
  all_goals simp

/-- Witness for the amended claim C6: a dirty element whose remote push
fails still consumes one unit of budget. -/
theorem pushBudget_counts_attempts_witness :
    (pushChanges 1 (fun _ => false) ironA "auto-cleanup" "bot"
        initRunState).2.1.budget.elementsPushed
      = initRunState.budget.elementsPushed + 1 := by
  exact pushBudget_counts_attempts 1 (fun _ => false) ironA "auto-cleanup"
    "bot" initRunState rfl (by decide)

/-- Claim C10: on a dirty, budget-allowed, review-needing element whose
remote branch push succeeds and whose pull-request creation then fails, the
element is marked pushFailed and the error is rethrown even though the
branch push had already taken remote effect, so a failed outcome does not
imply that no remote side effect occurred. -/
theorem pushChanges_failed_after_remote_push :
    ((pushChanges 1 (fun i => i == 0) ironB "auto-cleanup" "bot"
        initRunState).1.pushFailed = true)
    ∧ ((pushChanges 1 (fun i => i == 0) ironB "auto-cleanup" "bot"
        initRunState).2.2 = true)
    ∧ ((RemoteOp.push "auto-cleanup" "auto-cleanup", true)
        ∈ (pushChanges 1 (fun i => i == 0) ironB "auto-cleanup" "bot"
            initRunState).2.1.ops)
    ∧ ((RemoteOp.prCreate "Automatic cleanup!" "auto-cleanup" "master", false)
        ∈ (pushChanges 1 (fun i => i == 0) ironB "auto-cleanup" "bot"
            initRunState).2.1.ops) := by
  decide

/-- The deduplication loop at the end of `getRepos` in tedium.ts, over the
accumulated discovery list (the root repository followed by the fetched
pages in order): `repoIds` is the set of names already seen; a repository
whose name was seen is skipped, otherwise its name is recorded and the
repository is kept. -/
def dedupeReposAux : List Repo → List String → List Repo
  | [], _ => []
  | r :: rs, repoIds =>
    if repoIds.contains r.name then dedupeReposAux rs repoIds
    else r :: dedupeReposAux rs (r.name :: repoIds)

/-- The deduplicated repository list returned by `getRepos`, starting from
an empty seen-name set. -/
def getReposDedup (repos : List Repo) : List Repo := dedupeReposAux repos []

theorem dedupeReposAux_sublist (rs : List Repo) :
    ∀ repoIds, (dedupeReposAux rs repoIds).Sublist rs := by
  induction rs with
  | nil => intro repoIds; simp [dedupeReposAux]
  | cons r rs ih =>
    intro repoIds
    rw [dedupeReposAux]
    by_cases h : repoIds.contains r.name
    · rw [if_pos h]
      exact List.Sublist.cons r (ih repoIds)
    · rw [if_neg h]
      exact List.Sublist.cons₂ r (ih (r.name :: repoIds))

theorem dedupeReposAux_countP (n : String) (rs : List Repo) :
    ∀ repoIds, (dedupeReposAux rs repoIds).countP (fun r => r.name == n)
      = if repoIds.contains n then 0
        else if rs.any (fun r => r.name == n) then 1 else 0 := by
  induction rs with
  | nil => intro repoIds; simp [dedupeReposAux]
  | cons r rs ih =>
    intro repoIds
    rw [dedupeReposAux]
    by_cases h : r.name ∈ repoIds
    · rw [if_pos (by simpa using h), ih repoIds]
      by_cases hn : n ∈ repoIds
      · simp [hn]
      · have hne : r.name ≠ n := fun hh => hn (hh ▸ h)
        have hrn : (r.name == n) = false := by simpa using hne
        simp [hn, hrn]
    · rw [if_neg (by simpa using h)]
      rw [List.countP_cons, ih (r.name :: repoIds)]
      by_cases hn : n ∈ repoIds
      · have hne : r.name ≠ n := fun hh => h (hh ▸ hn)
        have hrn : (r.name == n) = false := by simpa using hne
        simp [hn, hrn]
      · by_cases he : r.name = n
        · subst he
          simp [hn]
        · have hne : ¬ n = r.name := fun hh => he hh.symm
          have hrn : (r.name == n) = false := by simpa using he
          simp [hn, hne, hrn]

theorem dedupeReposAux_find (n : String) (rs : List Repo) :
    ∀ repoIds, repoIds.contains n = false →
      (dedupeReposAux rs repoIds).find? (fun r => r.name == n)
        = rs.find? (fun r => r.name == n) := by
  induction rs with
  | nil => intro repoIds _; simp [dedupeReposAux]
  | cons r rs ih =>
    intro repoIds hn
    have hnmem : n ∉ repoIds := by simpa using hn
    rw [dedupeReposAux]
    by_cases h : r.name ∈ repoIds
    · rw [if_pos (by simpa using h)]
      have hne : r.name ≠ n := fun hh => hnmem (hh ▸ h)
      have hrn : (r.name == n) = false := by simpa using hne
      rw [ih repoIds hn, List.find?_cons, hrn]
    · rw [if_neg (by simpa using h)]
      by_cases he : r.name = n
      · subst he
        simp [List.find?_cons]
      · have hrn : (r.name == n) = false := by simpa using he
        have hnotin : (r.name :: repoIds).contains n = false := by
          have hne : ¬ n = r.name := fun hh => he hh.symm
          simp [hne, hnmem]
        rw [List.find?_cons, hrn, List.find?_cons, hrn,
          ih (r.name :: repoIds) hnotin]

/-- Claim C7: the deduplicated list `getRepos` returns is a sublist of the
accumulated discovery list (so the kept descriptors preserve their relative
order), contains each repository name exactly once when it occurs at all,
and keeps for each name the first-seen descriptor (its `find?` agrees with
`find?` on the original list). -/
theorem getRepos_dedup_correct (repos : List Repo) (n : String) :
    (getReposDedup repos).Sublist repos
    ∧ (getReposDedup repos).countP (fun r => r.name == n)
        = (if repos.any (fun r => r.name == n) then 1 else 0)
    ∧ (getReposDedup repos).find? (fun r => r.name == n)
        = repos.find? (fun r => r.name == n) := by
  refine ⟨dedupeReposAux_sublist repos [], ?_, ?_⟩
  · rw [getReposDedup, dedupeReposAux_countP n repos []]
    simp
  · exact dedupeReposAux_find n repos [] rfl

/-- Idealized-time model of one call to the `rateLimit` closure: the new
promise chains on the previous one, so its delay timer starts only when the
previous promise completes, and it completes `delay` later. -/
def rateLimitCall (prev delay : Nat) : Nat := prev + delay

/-- Completion times of a sequence of `rateLimit` calls with the given
delays, chained off a previous-promise completion time (initially 0:
`previousPromise = Promise.resolve(null)`). Each call's promise becomes the
previous promise for the next call. -/
def rateLimitCompletions (prev : Nat) : List Nat → List Nat
  | [] => []
  | d :: ds => rateLimitCall prev d :: rateLimitCompletions (rateLimitCall prev d) ds

theorem rateLimitCompletions_length (ds : List Nat) :
    ∀ prev, (rateLimitCompletions prev ds).length = ds.length := by
  induction ds with
  | nil => intro prev; rfl
  | cons d ds ih => intro prev; simp [rateLimitCompletions, ih]

theorem rateLimitCompletions_getD (ds : List Nat) :
    ∀ prev i, i < ds.length →
      (rateLimitCompletions prev ds).getD i 0 = prev + (ds.take (i + 1)).sum := by
  induction ds with
  | nil => intro prev i hi; exact absurd hi (by simp)
  | cons d ds ih =>
    intro prev i hi
    cases i with
    | zero => simp [rateLimitCompletions, rateLimitCall]
    | succ i =>
      rw [rateLimitCompletions, List.getD_cons_succ,
        ih (rateLimitCall prev d) i (by simpa using hi)]
      simp only [rateLimitCall, List.take_succ_cons, List.sum_cons]
      omega

/-- Claim C9: the rateLimit promises form a single serial chain: the
(i+1)-th call's completion is the i-th call's completion plus the (i+1)-th
delay (its delay begins only after the previous call's delay completes), so
completions occur in call order; consequently, for any number of calls with
equal delay d, the i-th completion (1-indexed) occurs exactly i*d — hence
no sooner than i*d — after the chain starts. -/
theorem rateLimit_serializes (ds : List Nat) (i : Nat) (hi : i + 1 < ds.length)
    (N d i2 : Nat) (h2 : i2 < N) :
    (rateLimitCompletions 0 ds).getD (i + 1) 0
      = (rateLimitCompletions 0 ds).getD i 0 + ds.getD (i + 1) 0
    ∧ (rateLimitCompletions 0 ds).getD i 0
        ≤ (rateLimitCompletions 0 ds).getD (i + 1) 0
    ∧ (rateLimitCompletions 0 (List.replicate N d)).getD i2 0
        = (i2 + 1) * d := by
  have key : ∀ j, j < ds.length →
      (rateLimitCompletions 0 ds).getD j 0 = (ds.take (j + 1)).sum := by
    intro j hj
    simpa using rateLimitCompletions_getD ds 0 j hj
  have h1 := key i (by omega)
  have h2' := key (i + 1) hi
  have hsum : (ds.take (i + 1 + 1)).sum = (ds.take (i + 1)).sum + ds.getD (i + 1) 0 := by
    have : ds.take (i + 2) = ds.take (i + 1) ++ [ds.getD (i + 1) 0] := by
      rw [List.getD_eq_getElem _ _ hi]
      exact (List.take_concat_get' ds (i + 1) hi).symm
    rw [this, List.sum_append, List.sum_cons, List.sum_nil]
    omega
  refine ⟨by rw [h1, h2', hsum], by rw [h1, h2', hsum]; omega, ?_⟩
  have hrep := rateLimitCompletions_getD (List.replicate N d) 0 i2 (by simpa using h2)
  rw [hrep, List.take_replicate, List.sum_replicate]
  have hmin : min (i2 + 1) N = i2 + 1 := by omega
  rw [hmin, smul_eq_mul]
  omega

/-- Witness for claim C9 at a concrete chain of three delays and three
equal-delay calls. -/
theorem rateLimit_serializes_witness :
    (rateLimitCompletions 0 [2, 3, 4]).getD 2 0
      = (rateLimitCompletions 0 [2, 3, 4]).getD 1 0 + [2, 3, 4].getD 2 0
    ∧ (rateLimitCompletions 0 [2, 3, 4]).getD 1 0
        ≤ (rateLimitCompletions 0 [2, 3, 4]).getD 2 0
    ∧ (rateLimitCompletions 0 (List.replicate 3 5)).getD 2 0 = (2 + 1) * 5 := by
  exact rateLimit_serializes [2, 3, 4] 1 (by decide) 3 5 2 (by decide)

/-- Result of the external cleanup pipeline (checkout of the working branch
followed by the cleanup passes) on one repository: either it threw, or it
completed, reporting whether it dirtied the checkout and whether the change
needs review. -/
inductive CleanupResult where
  | threw
  | done (dirty needsReview : Bool)
deriving Repr, DecidableEq

/-- One iteration of the transform-and-publish loop in `_main`: run the
external cleanup pipeline on the element (abstracted by its result, keyed by
the element's directory), then `pushChanges` with the fixed branch name and
the authenticated user as assignee. Returns the updated element, the updated
process-wide state, and whether the iteration threw. -/
def elementStep (m : Nat) (oracle : Nat → Bool) (branchName assignee : String)
    (cleanupOf : String → CleanupResult) (e : ElementRepo) (g : RunState) :
    ElementRepo × RunState × Bool :=
  match cleanupOf e.dir with
  | CleanupResult.threw => (e, g, true)
  | CleanupResult.done d nr =>
      pushChanges m oracle { e with dirty := d, needsReview := nr }
        branchName assignee g

/-- The statically excluded repository directories in `_main`. -/
def excludes : List String :=
  ["repos/style-guide", "repos/test-all", "repos/ContributionGuide",
   "repos/polymer", "repos/paper-listbox"]

/-- The sequential transform-and-publish loop of `_main` over the accumulated
elements: elements are processed in order; an excluded element is skipped;
when an iteration throws, the error is wrapped as
"Error updating " followed by the element's directory and the loop stops,
leaving every later element untouched in the accumulated list. -/
def transformLoop (m : Nat) (oracle : Nat → Bool) (branchName assignee : String)
    (cleanupOf : String → CleanupResult) :
    List ElementRepo → RunState → List ElementRepo × RunState × Option String
  | [], g => ([], g, none)
  | e :: rest, g =>
    if excludes.contains e.dir then
      let r := transformLoop m oracle branchName assignee cleanupOf rest g
      (e :: r.1, r.2.1, r.2.2)
    else
      let s := elementStep m oracle branchName assignee cleanupOf e g
      if s.2.2 then
        (s.1 :: rest, s.2.1, some ("Error updating " ++ e.dir))
      else
        let r := transformLoop m oracle branchName assignee cleanupOf rest s.2.1
        (s.1 :: r.1, r.2.1, r.2.2)

/-- `reportOnChangesMade` from tedium.ts: the directories listed in the
denied, pushed and failed sections of the report, in element order. -/
structure Report where
  deniedDirs : List String
  pushedDirs : List String
  failedDirs : List String
deriving Repr, DecidableEq

def reportOnChangesMade (elements : List ElementRepo) : Report :=
  { deniedDirs := (elements.filter (fun e => e.pushDenied)).map (fun e => e.dir),
    pushedDirs := (elements.filter (fun e => e.pushSucceeded)).map (fun e => e.dir),
    failedDirs := (elements.filter (fun e => e.pushFailed)).map (fun e => e.dir) }

/-- The tail of `main`/`_main` after cloning: run the transform-and-publish
loop over the accumulated elements, then report. On normal completion the
process exits 0; on an error, `main` still reports over the accumulated
elements, prints the wrapped error and exits 1. -/
def mainModel (m : Nat) (oracle : Nat → Bool) (branchName assignee : String)
    (cleanupOf : String → CleanupResult) (elements : List ElementRepo) :
    Report × Nat × Option String :=
  let r := transformLoop m oracle branchName assignee cleanupOf elements initRunState
  match r.2.2 with
  | none => (reportOnChangesMade r.1, 0, none)
  | some msg => (reportOnChangesMade r.1, 1, some msg)

theorem pushChanges_no_throw (m : Nat) (oracle : Nat → Bool) (e : ElementRepo)
    (lb asg : String) (g : RunState) (hor : ∀ i, oracle i = true) :
    (pushChanges m oracle e lb asg g).2.2 = false := by
  by_cases hd : e.dirty = false
  · simp [pushChanges, hd]
  · by_cases hall : g.budget.elementsPushed < m
    · cases hnr : e.needsReview <;>
        simp [pushChanges, pushIsAllowed, hd, hall, hnr, hor, createPullRequest]
    · simp [pushChanges, pushIsAllowed, hd, hall]

theorem elementStep_no_throw (m : Nat) (oracle : Nat → Bool)
    (bn asg : String) (cleanupOf : String → CleanupResult)
    (e : ElementRepo) (g : RunState) (hor : ∀ i, oracle i = true)
    (hc : cleanupOf e.dir ≠ CleanupResult.threw) :
    (elementStep m oracle bn asg cleanupOf e g).2.2 = false := by
  cases hcc : cleanupOf e.dir with
  | threw => exact absurd hcc hc
  | done d nr =>
    simp only [elementStep, hcc]
    exact pushChanges_no_throw m oracle _ bn asg g hor

theorem transformLoop_throw_at (m : Nat) (oracle : Nat → Bool)
    (bn asg : String) (cleanupOf : String → CleanupResult)
    (elements : List ElementRepo) :
    ∀ (k : Nat) (g : RunState) (hk : k < elements.length),
      (∀ i, oracle i = true) →
      (∀ x ∈ elements.take k, cleanupOf x.dir ≠ CleanupResult.threw) →
      cleanupOf (elements.get ⟨k, hk⟩).dir = CleanupResult.threw →
      excludes.contains (elements.get ⟨k, hk⟩).dir = false →
      (transformLoop m oracle bn asg cleanupOf elements g).2.2
          = some ("Error updating " ++ (elements.get ⟨k, hk⟩).dir)
      ∧ (transformLoop m oracle bn asg cleanupOf elements g).1.drop k
          = elements.drop k
      ∧ (transformLoop m oracle bn asg cleanupOf elements g).1.take k
          = (transformLoop m oracle bn asg cleanupOf (elements.take k) g).1
      ∧ (transformLoop m oracle bn asg cleanupOf (elements.take k) g).2.2
          = none := by
  induction elements with
  | nil =>
    intro k g hk
    exact absurd hk (by simp)
  | cons e rest ih =>
    intro k g hk hor hbefore hthrow hnotex
    cases k with
    | zero =>
      have hth : cleanupOf e.dir = CleanupResult.threw := hthrow
      have hnx : excludes.contains e.dir = false := hnotex
      have hnxm : e.dir ∉ excludes := by simpa using hnx
      have hloop : transformLoop m oracle bn asg cleanupOf (e :: rest) g
          = (e :: rest, g, some ("Error updating " ++ e.dir)) := by
        simp [transformLoop, hnxm, elementStep, hth]
      refine ⟨by rw [hloop]; rfl, by rw [hloop], ?_, ?_⟩
      · simp [transformLoop]
      · simp [transformLoop]
    | succ k =>
      have hk' : k < rest.length := by simpa using hk
      have hbefore' : ∀ x ∈ rest.take k, cleanupOf x.dir ≠ CleanupResult.threw := by
        intro x hx
        exact hbefore x (by simp [List.take_succ_cons, List.mem_cons_of_mem, hx])
      have hbe : cleanupOf e.dir ≠ CleanupResult.threw :=
        hbefore e (by simp [List.take_succ_cons])
      have hthrow' : cleanupOf (rest.get ⟨k, hk'⟩).dir = CleanupResult.threw :=
        hthrow
      have hnotex' : excludes.contains (rest.get ⟨k, hk'⟩).dir = false := hnotex
      by_cases hexm : e.dir ∈ excludes
      · obtain ⟨i1, i2, i3, i4⟩ := ih k g hk' hor hbefore' hthrow' hnotex'
        have hloop : transformLoop m oracle bn asg cleanupOf (e :: rest) g
            = (e :: (transformLoop m oracle bn asg cleanupOf rest g).1,
               (transformLoop m oracle bn asg cleanupOf rest g).2.1,
               (transformLoop m oracle bn asg cleanupOf rest g).2.2) := by
          simp [transformLoop, hexm]
        have hploop :
            transformLoop m oracle bn asg cleanupOf ((e :: rest).take (k + 1)) g
              = (e :: (transformLoop m oracle bn asg cleanupOf (rest.take k) g).1,
                 (transformLoop m oracle bn asg cleanupOf (rest.take k) g).2.1,
                 (transformLoop m oracle bn asg cleanupOf (rest.take k) g).2.2) := by
          rw [List.take_succ_cons]
          simp [transformLoop, hexm]
        refine ⟨by rw [hloop]; exact i1, ?_, ?_, ?_⟩
        · rw [hloop]
          simpa using i2
        · rw [hloop, hploop]
          simpa using i3
        · rw [hploop]
          exact i4
      · have hs : (elementStep m oracle bn asg cleanupOf e g).2.2 = false :=
          elementStep_no_throw m oracle bn asg cleanupOf e g hor hbe
        obtain ⟨i1, i2, i3, i4⟩ :=
          ih k (elementStep m oracle bn asg cleanupOf e g).2.1 hk' hor
            hbefore' hthrow' hnotex'
        have hloop : transformLoop m oracle bn asg cleanupOf (e :: rest) g
            = ((elementStep m oracle bn asg cleanupOf e g).1
                 :: (transformLoop m oracle bn asg cleanupOf rest
                      (elementStep m oracle bn asg cleanupOf e g).2.1).1,
               (transformLoop m oracle bn asg cleanupOf rest
                  (elementStep m oracle bn asg cleanupOf e g).2.1).2.1,
               (transformLoop m oracle bn asg cleanupOf rest
                  (elementStep m oracle bn asg cleanupOf e g).2.1).2.2) := by
          simp [transformLoop, hexm, hs]
        have hploop :
            transformLoop m oracle bn asg cleanupOf ((e :: rest).take (k + 1)) g
              = ((elementStep m oracle bn asg cleanupOf e g).1
                   :: (transformLoop m oracle bn asg cleanupOf (rest.take k)
                        (elementStep m oracle bn asg cleanupOf e g).2.1).1,
                 (transformLoop m oracle bn asg cleanupOf (rest.take k)
                    (elementStep m oracle bn asg cleanupOf e g).2.1).2.1,
                 (transformLoop m oracle bn asg cleanupOf (rest.take k)
                    (elementStep m oracle bn asg cleanupOf e g).2.1).2.2) := by
          rw [List.take_succ_cons]
          simp [transformLoop, hexm, hs]
        refine ⟨by rw [hloop]; exact i1, ?_, ?_, ?_⟩
        · rw [hloop]
          simpa using i2
        · rw [hloop, hploop]
          simpa using i3
        · rw [hploop]
          exact i4

/-- Claim C8: if, with every remote call succeeding, the cleanup step throws
on the k-th accumulated repository (earlier cleanups completing and the k-th
repository not excluded), then the run's error is wrapped with that
repository's directory, the process exits 1, the repositories after the k-th
are left exactly as they were (never attempted), the recorded outcomes of
the repositories before the k-th are exactly those of processing that prefix
alone, and the final report is still computed from the whole accumulated
list. -/
theorem mainModel_abort_on_error (m : Nat) (oracle : Nat → Bool)
    (bn asg : String) (cleanupOf : String → CleanupResult)
    (elements : List ElementRepo) (k : Nat) (hk : k < elements.length)
    (hor : ∀ i, oracle i = true)
    (hbefore : ∀ x ∈ elements.take k, cleanupOf x.dir ≠ CleanupResult.threw)
    (hthrow : cleanupOf (elements.get ⟨k, hk⟩).dir = CleanupResult.threw)
    (hnotex : excludes.contains (elements.get ⟨k, hk⟩).dir = false) :
    mainModel m oracle bn asg cleanupOf elements
      = (reportOnChangesMade
           (transformLoop m oracle bn asg cleanupOf elements initRunState).1,
         1, some ("Error updating " ++ (elements.get ⟨k, hk⟩).dir))
    ∧ (transformLoop m oracle bn asg cleanupOf elements initRunState).1.drop k
        = elements.drop k
    ∧ (transformLoop m oracle bn asg cleanupOf elements initRunState).1.take k
        = (transformLoop m oracle bn asg cleanupOf (elements.take k)
            initRunState).1 := by
  obtain ⟨h1, h2, h3, _⟩ := transformLoop_throw_at m oracle bn asg cleanupOf
    elements k initRunState hk hor hbefore hthrow hnotex
  refine ⟨?_, h2, h3⟩
  rw [mainModel]
  simp only [h1]

/-- Cleanup-outcome oracle that throws exactly on the directory of `ironB`
and otherwise completes without changes. -/
def cleanupW : String → CleanupResult := fun s =>
  if s == "repos/iron-b" then CleanupResult.threw
  else CleanupResult.done false false

/-- Witness for claim C8: two accumulated repositories, the cleanup of the
second throws; the run reports over both, exits 1 with the wrapped error,
and the second repository is returned untouched. -/
theorem mainModel_abort_on_error_witness :
    mainModel 0 (fun _ => true) "auto-cleanup" "bot" cleanupW [ironA, ironB]
      = (reportOnChangesMade
           (transformLoop 0 (fun _ => true) "auto-cleanup" "bot" cleanupW
             [ironA, ironB] initRunState).1,
         1, some "Error updating repos/iron-b")
    ∧ (transformLoop 0 (fun _ => true) "auto-cleanup" "bot" cleanupW
         [ironA, ironB] initRunState).1.drop 1 = [ironB] := by
  have h := mainModel_abort_on_error 0 (fun _ => true) "auto-cleanup" "bot"
    cleanupW [ironA, ironB] 1 (by simp) (fun _ => rfl)
    (by intro x hx; simp [List.take_succ_cons] at hx; subst hx; decide)
    (by decide) (by decide)
  refine ⟨h.1.trans (by decide), h.2.1.trans (by decide)⟩

end Tedium
